import Mathlib

set_option maxRecDepth 100000

/-!
Shallow embedding of the watchtower hint database and justice-transaction
reconstructor of `src/watchtower/watchdb.go`.

Bytes are modelled as `Nat` (each in `0..255` for real inputs), byte strings as
`List Nat`.  The bolt key-value store is modelled as association lists; a
`bolt.Update` transaction body is a function returning `Except`, and the
wrapper commits the new store on success and rolls back (returns the original
store) on error, mirroring bolt's documented transaction semantics.

Repository code the claims depend on that is not under `src/` (the `lnutil`
byte codecs, the `elkrem` hash-tree receiver, `sig64`, and the message /
descriptor types) is modelled from the spec; each such definition carries a
doc comment starting with "Modelled from the spec:".  External libraries
(btcec elliptic-curve arithmetic, SHA-256 hashing, the bolt engine) are
likewise modelled at their interfaces.
-/

/-- Association-list lookup: the first binding for the key wins.  Models a
bolt bucket `Get`, returning `none` for an absent key (Go `nil`). -/
def getA {α β : Type} [DecidableEq α] : List (α × β) → α → Option β
  | [], _ => none
  | (k, v) :: t, a => if k = a then some v else getA t a

/-- Association-list store: replaces an existing binding, appends otherwise.
Models a bolt bucket `Put`. -/
def putA {α β : Type} [DecidableEq α] : List (α × β) → α → β → List (α × β)
  | [], a, b => [(a, b)]
  | (k, v) :: t, a, b => if k = a then (a, b) :: t else (k, v) :: putA t a b

/-- Largest key present in a `Nat`-keyed bucket.  Models the bolt cursor
`Last()` on a bucket whose 4-byte big-endian keys sort in numeric order. -/
def maxKey {β : Type} : List (Nat × β) → Option Nat
  | [] => none
  | (k, _) :: t => some (match maxKey t with | none => k | some m => max k m)

/-- Go `copy` into a zero-initialised `n`-byte array: keeps the first `n`
bytes and pads with zero bytes when the source is shorter. -/
def takePad (n : Nat) (l : List Nat) : List Nat :=
  l.take n ++ List.replicate (n - l.length) 0

/-- Modelled from the spec: `lnutil.U16tB`, 2-byte big-endian encoding. -/
def u16tB (n : Nat) : List Nat :=
  [n / 2 ^ 8 % 256, n % 256]

/-- Modelled from the spec: `lnutil.U32tB`, 4-byte big-endian encoding of a
32-bit index. -/
def u32tB (n : Nat) : List Nat :=
  [n / 2 ^ 24 % 256, n / 2 ^ 16 % 256, n / 2 ^ 8 % 256, n % 256]

/-- Modelled from the spec: `lnutil.U64tB`, 8-byte big-endian encoding of the
64-bit state counter. -/
def u64tB (n : Nat) : List Nat :=
  [n / 2 ^ 56 % 256, n / 2 ^ 48 % 256, n / 2 ^ 40 % 256, n / 2 ^ 32 % 256,
   n / 2 ^ 24 % 256, n / 2 ^ 16 % 256, n / 2 ^ 8 % 256, n % 256]

/-- Big-endian 6-byte encoding of a 48-bit state index (the low 6 bytes of
the 8-byte counter). -/
def u48tB (n : Nat) : List Nat :=
  [n / 2 ^ 40 % 256, n / 2 ^ 32 % 256, n / 2 ^ 24 % 256, n / 2 ^ 16 % 256,
   n / 2 ^ 8 % 256, n % 256]

/-- Modelled from the spec: big-endian bytes-to-integer decoding
(`lnutil.BtU32` / `BtU64` on well-formed input). -/
def btUN (b : List Nat) : Nat :=
  b.foldl (fun a x => a * 256 + x) 0

/-- Modelled from the spec: 8-byte big-endian encoding of the signed 64-bit
fee (two's complement). -/
def i64tB (z : Int) : List Nat :=
  u64tB (z % (2 ^ 64 : Int)).toNat

/-- Modelled from the spec: signed 64-bit big-endian decoding of the fee. -/
def btI64 (b : List Nat) : Int :=
  let u := btUN b
  if u < 2 ^ 63 then (u : Int) else (u : Int) - 2 ^ 64

/-- Modelled from the spec: the elkrem (hash-tree) receiver, kept abstractly
as the indexed scalars it has ingested and can reproduce (`§4.2`): each node
pairs a leaf index with its 32-byte scalar.  The hash-descent compression and
verification of the real primitive are external cryptography and are not
modelled; `AddNext` is modelled as always accepting (its rejection of
out-of-sequence scalars is a crypto check outside this embedding). -/
structure ElkremReceiver where
  nodes : List (Nat × List Nat)
deriving DecidableEq, Repr

/-- Modelled from the spec: the Go receiver's `UpTo()` — the index of the most
recently ingested leaf (`0` for an empty receiver); for a receiver holding
`k` leaves this is `k - 1`, i.e. the spec's `up_to() - 1` where the spec's
`up_to()` counts the scalars already added. -/
def elkremUpTo (r : ElkremReceiver) : Nat :=
  match r.nodes.getLast? with
  | none => 0
  | some p => p.1

/-- Modelled from the spec: `add_next` ingests the next scalar, giving it the
next leaf index. -/
def elkremAddNext (r : ElkremReceiver) (s : List Nat) : ElkremReceiver :=
  ⟨r.nodes ++ [(match r.nodes.getLast? with | none => 0 | some p => p.1 + 1, s)]⟩

/-- Modelled from the spec: `at_index(n)` reproduces the scalar of leaf `n`,
`none` when the index was never authenticated. -/
def elkremAtIndex (r : ElkremReceiver) (n : Nat) : Option (List Nat) :=
  (r.nodes.find? (fun p => p.1 == n)).map Prod.snd

/-- Modelled from the spec: serialisation of the receiver — 40 bytes per
node: 8-byte big-endian index followed by the 32-byte scalar. -/
def elkremToBytes (r : ElkremReceiver) : List Nat :=
  (r.nodes.map (fun p => u64tB p.1 ++ takePad 32 p.2)).flatten

/-- Parse 40-byte receiver nodes; the fuel argument (instantiated with the
byte count) only serves termination. -/
def parseElkNodes : Nat → List Nat → Except String (List (Nat × List Nat))
  | _, [] => Except.ok []
  | 0, _ => Except.error "elkrem bytes malformed"
  | fuel + 1, b =>
    if b.length < 40 then Except.error "elkrem bytes malformed"
    else
      match parseElkNodes fuel (b.drop 40) with
      | Except.ok ns => Except.ok ((btUN (b.take 8), (b.drop 8).take 32) :: ns)
      | Except.error e => Except.error e

/-- Modelled from the spec: `ElkremReceiverFromBytes`. -/
def elkremFromBytes (b : List Nat) : Except String ElkremReceiver :=
  (parseElkNodes b.length b).map (fun ns => ⟨ns⟩)

/-- A channel sub-bucket of the ChannelData bucket: the three sub-keys
`sta`, `elk`, `idx` of `watchdb.go`. -/
structure ChanBucket where
  static : Option (List Nat)
  elk : Option (List Nat)
  idx : Option (List Nat)
deriving DecidableEq, Repr

/-- The three top-level buckets of the watchtower store (`watchdb.go`):
`pkm` (local index to pkh), `cda` (per-channel sub-buckets), `txi` (hints).
PkhMap keys are kept as the `Nat` a 4-byte big-endian key encodes. -/
structure WatchStore where
  pkhMap : List (Nat × List Nat)
  chanData : List (List Nat × ChanBucket)
  txidBkt : List (List Nat × List Nat)
deriving DecidableEq, Repr

/-- The store right after `OpenDB` on a fresh file: the three buckets exist
and are empty. -/
def emptyStore : WatchStore := ⟨[], [], []⟩

/-- `OpenDB` on an existing store only ensures the three buckets exist, so
reopening is the identity on the modelled state. -/
def openDB (s : WatchStore) : WatchStore := s

/-- Update one channel sub-bucket in place (a `Put` on a sub-key of an
existing sub-bucket). -/
def putSub (s : WatchStore) (pkh : List Nat) (f : ChanBucket → ChanBucket) : WatchStore :=
  match getA s.chanData pkh with
  | none => s
  | some cb => { s with chanData := putA s.chanData pkh (f cb) }

/-- Modelled from the spec: the wire message `ComMsg` delivering one hint —
destination pkh (20 B), full commitment txid (32 B), next revocation scalar
(32 B) and compact signature (64 B). -/
structure ComMsg where
  DestPKH : List Nat
  ParTxid : List Nat
  Elk : List Nat
  Sig : List Nat
deriving DecidableEq, Repr

/-- The in-memory form of the 74-byte stored hint (`IdxSig`). -/
structure IdxSig where
  PKHIdx : Nat
  StateIdx : Nat
  Sig : List Nat
deriving DecidableEq, Repr

/-- Modelled from the spec: `IdxSigFromBytes` — decode a 74-byte hint record
(`pkh_idx(4) ‖ state_idx(6) ‖ sig(64)`), failing on any other length. -/
def IdxSigFromBytes (b : List Nat) : Except String IdxSig :=
  if b.length = 74 then
    Except.ok ⟨btUN (b.take 4), btUN ((b.drop 4).take 6), b.drop 10⟩
  else Except.error "IdxSig wrong length"

/-- Modelled from the spec: the channel descriptor delivered at channel-open
(`§3`): payout pkh, the two base points, relative-timelock delay, fee, and
the initial revocation scalar `elk_zero`. -/
structure WatchannelDescriptor where
  DestPKHScript : List Nat
  AdversaryBasePoint : List Nat
  CustomerBasePoint : List Nat
  Delay : Nat
  Fee : Int
  ElkZero : List Nat
deriving DecidableEq, Repr

/-- Modelled from the spec: `WatchannelDescriptor.ToBytes`, the 124-byte wire
serialisation `pkh(20) ‖ adv(33) ‖ cust(33) ‖ delay(2) ‖ fee(8) ‖ elk0(32)`. -/
def wdToBytes (wd : WatchannelDescriptor) : List Nat :=
  takePad 20 wd.DestPKHScript ++ takePad 33 wd.AdversaryBasePoint ++
    takePad 33 wd.CustomerBasePoint ++ u16tB wd.Delay ++ i64tB wd.Fee ++
    takePad 32 wd.ElkZero

/-- Modelled from the spec: `WatchannelDescriptorFromBytes` on the 96-byte
static record; fails on any other length.  `elk_zero` is not stored in the
static record and decodes as zero bytes. -/
def wdFromBytes (b : List Nat) : Except String WatchannelDescriptor :=
  if b.length = 96 then
    Except.ok ⟨b.take 20, (b.drop 20).take 33, (b.drop 53).take 33,
      btUN ((b.drop 86).take 2), btI64 ((b.drop 88).take 8), List.replicate 32 0⟩
  else Except.error "descriptor wrong length"

/-- The index `AddNewChannel` assigns: the cursor `Last()` plus
`lnutil.BtU32(k) + 1` computation of `watchdb.go:119-121`.  `BtU32` yields a
`uint32`, so the increment wraps modulo `2 ^ 32`; on an empty map `Last()`
returns nil, `BtU32(nil)` is `0xffffffff`, and the wrapped increment gives
index `0`, the spec's empty-map case. -/
def assignedIdx (s : WatchStore) : Nat :=
  match maxKey s.pkhMap with
  | none => 0
  | some k => (k + 1) % 2 ^ 32

/-- The body of `AddNewChannel` (`watchdb.go:110-162`), acting inside one
transaction: choose the index, create the channel sub-bucket (failing if it
exists), length-check the serialised descriptor, write the 96-byte static
record, the initial elkrem receiver seeded with `elk_zero`, the 4-byte index,
and the PkhMap entry.  The store arguments after `s` are the fields of the
descriptor the Go body reads (`wd.DestPKHScript`, `wd.ToBytes()`,
`wd.ElkZero`). -/
def addNewChannelBytes (s : WatchStore) (destPKH wdBytes elkZero : List Nat) :
    Except String WatchStore :=
  let newIdx := assignedIdx s
  let newIdxBytes := u32tB newIdx
  match getA s.chanData destPKH with
  | some _ => Except.error "bucket already exists"
  | none =>
    let s1 : WatchStore :=
      { s with chanData := putA s.chanData destPKH ⟨none, none, none⟩ }
    if wdBytes.length < 96 then
      Except.error "watchdescriptor %d bytes, expect 96"
    else
      let s2 := putSub s1 destPKH (fun b => { b with static := some (wdBytes.take 96) })
      let elkr := elkremAddNext ⟨[]⟩ elkZero
      let elkBytes := elkremToBytes elkr
      let s3 := putSub s2 destPKH (fun b => { b with elk := some elkBytes })
      let s4 := putSub s3 destPKH (fun b => { b with idx := some newIdxBytes })
      Except.ok { s4 with pkhMap := putA s4.pkhMap newIdx destPKH }

/-- `AddNewChannel` as the caller sees it: the `bolt.Update` wrapper commits
the body's store on success and rolls back on error; the Go function returns
only `error` (no index), modelled as `Except String Unit`. -/
def AddNewChannel (s : WatchStore) (wd : WatchannelDescriptor) :
    WatchStore × Except String Unit :=
  match addNewChannelBytes s wd.DestPKHScript (wdToBytes wd) wd.ElkZero with
  | Except.ok s2 => (s2, Except.ok ())
  | Except.error e => (s, Except.error e)

/-- The body of `AddMsg` (`watchdb.go:166-227`) inside one transaction:
locate the channel sub-bucket, decode and advance the elkrem receiver, take
the 8-byte state counter after the add, write the receiver back, read the
4-byte channel index, assemble the 74-byte record
`idx(4) ‖ counter[2:](6) ‖ sig(64)`, and store it under the first 8 bytes of
the commitment txid. -/
def addMsgBody (s : WatchStore) (cm : ComMsg) : Except String WatchStore :=
  match getA s.chanData cm.DestPKH with
  | none => Except.error "no bucket for channel"
  | some cb =>
    match elkremFromBytes (cb.elk.getD []) with
    | Except.error e => Except.error e
    | Except.ok elkr =>
      let elkr2 := elkremAddNext elkr cm.Elk
      let stateNumBytes := u64tB (elkremUpTo elkr2)
      let elkBytes := elkremToBytes elkr2
      let s1 := putSub s cm.DestPKH (fun b => { b with elk := some elkBytes })
      match (getA s1.chanData cm.DestPKH).bind (fun b => b.idx) with
      | none => Except.error "channel has no index"
      | some cIdxBytes =>
        let sigIdxBytes := takePad 4 cIdxBytes ++ stateNumBytes.drop 2 ++ takePad 64 cm.Sig
        Except.ok { s1 with txidBkt := putA s1.txidBkt (cm.ParTxid.take 8) sigIdxBytes }

/-- `AddMsg` as the caller sees it: commit on success, roll back on error. -/
def AddMsg (s : WatchStore) (cm : ComMsg) : WatchStore × Except String Unit :=
  match addMsgBody s cm with
  | Except.ok s2 => (s2, Except.ok ())
  | Except.error e => (s, Except.error e)

/-- `IngestTx` (`watchdb.go:231-254`): a read-only transaction fetching the
hint stored under the first 16 bytes of the candidate txid; `ok none` on a
miss, the decoded `IdxSig` on a hit. -/
def IngestTx (s : WatchStore) (txid : List Nat) : Except String (Option IdxSig) :=
  match getA s.txidBkt (txid.take 16) with
  | none => Except.ok none
  | some b => (IdxSigFromBytes b).map some

/-- A transaction output (`wire.TxOut`): amount in satoshis (signed 64-bit)
and output script. -/
structure TxOut where
  Value : Int
  PkScript : List Nat
deriving DecidableEq, Repr

/-- An outpoint (`wire.OutPoint`): spent txid and output index. -/
structure OutPoint where
  Hash : List Nat
  Index : Nat
deriving DecidableEq, Repr

/-- A transaction input (`wire.TxIn`). -/
structure TxIn where
  PreviousOutPoint : OutPoint
  SignatureScript : List Nat
  Witness : List (List Nat)
  Sequence : Nat
deriving DecidableEq, Repr

/-- A transaction (`wire.MsgTx`); `wire.NewMsgTx()` defaults are version 1
and lock time 0. -/
structure MsgTx where
  Version : Int
  TxIns : List TxIn
  TxOuts : List TxOut
  LockTime : Nat
deriving DecidableEq, Repr

/-- Modelled from the spec: the transaction identifier (`TxHash`) is an
external double-SHA-256; modelled as an opaque deterministic 32-byte function
of the transaction. -/
def txHash (tx : MsgTx) : List Nat :=
  takePad 32 [tx.TxOuts.length % 256, tx.TxIns.length % 256, tx.LockTime % 256]

/-- Modelled from the spec: `btcec.PrivKeyFromBytes` — the compressed EC
point of the scalar; EC arithmetic is external, modelled as a tagged copy of
the scalar bytes. -/
def privKeyToPoint (k : List Nat) : List Nat :=
  2 :: takePad 32 k

/-- Modelled from the spec: `btcec.ParsePubKey` — accepts a 33-byte
compressed point, rejects other lengths (full curve validation is external
cryptography). -/
def parsePubKey (b : List Nat) : Except String (List Nat) :=
  if b.length = 33 then Except.ok b else Except.error "invalid pubkey"

/-- Modelled from the spec: `CombinablePubKeySlice.Combine` followed by
`SerializeCompressed` — EC point addition is external cryptography, modelled
as a 33-byte compressed point (tag plus 32 bytes) that depends on both
operands, as the curve sum does. -/
def combinePubKeys (a b : List Nat) : List Nat :=
  3 :: List.zipWith (fun x y => (x + y) % 256) (takePad 32 (a.drop 1)) (takePad 32 (b.drop 1))

/-- Modelled from the spec: `lnutil.CommitScript` — the standard
revocable-with-delay script over the revocation key, the timeout key and the
delay; an external script helper, modelled as an injective encoding of its
three inputs. -/
def commitScript (rev timeout : List Nat) (delay : Nat) : List Nat :=
  99 :: rev ++ 103 :: u16tB delay ++ 178 :: 117 :: timeout ++ [104, 172]

/-- Modelled from the spec: `lnutil.P2WSHify` — wraps a witness script into a
P2WSH output script; the SHA-256 witness-program hash is external, modelled
as an injective tagging of the script. -/
def p2wshify (script : List Nat) : List Nat :=
  0 :: 32 :: script

/-- Modelled from the spec: `lnutil.DirectWPKHScriptFromPKH` — the P2WPKH
output script `OP_0 <20-byte pkh>`. -/
def directWPKHScriptFromPKH (pkh : List Nat) : List Nat :=
  0 :: 20 :: takePad 20 pkh

/-- Modelled from the spec: `sig64.SigDecompress` — expands the 64-byte
compact signature to its ~71-byte DER form; external, modelled as an
injective framing of the compact bytes. -/
def sigDecompress (sig : List Nat) : List Nat :=
  48 :: takePad 64 sig ++ [1]

/-- Default `TxOut` used to model an in-range Go slice index. -/
def defaultTxOut : TxOut := ⟨0, []⟩

/-- `BuildJusticeTx` (`watchdb.go:261-403`): read the channel's pkh, static
descriptor and elkrem receiver from the store, reproduce the per-state
commitment script, scan the offending transaction's outputs for the first
byte-equal P2WSH script (with the Go code's `999` not-found sentinel), and
assemble the sweeping transaction. -/
def BuildJusticeTx (s : WatchStore) (badTx : MsgTx) (isig : IdxSig) :
    Except String MsgTx :=
  match getA s.pkhMap isig.PKHIdx with
  | none => Except.error "No pkh found for index"
  | some pkh =>
  match getA s.chanData pkh with
  | none => Except.error "No bucket for pkh"
  | some pkhBucket =>
  match pkhBucket.static with
  | none => Except.error "No static data for pkh"
  | some staticBytes =>
  match wdFromBytes staticBytes with
  | Except.error e => Except.error e
  | Except.ok wd =>
  match pkhBucket.elk with
  | none => Except.error "No elkrem receiver for pkh"
  | some elkBytes =>
  match elkremFromBytes elkBytes with
  | Except.error e => Except.error e
  | Except.ok elkRcv =>
  match elkremAtIndex elkRcv isig.StateIdx with
  | none => Except.error "elkrem index out of range"
  | some elkScalarHash =>
  let elkPoint := privKeyToPoint elkScalarHash
  match parsePubKey wd.AdversaryBasePoint with
  | Except.error e => Except.error e
  | Except.ok attackerBase =>
  match parsePubKey wd.CustomerBasePoint with
  | Except.error e => Except.error e
  | Except.ok customerBase =>
  let timeoutKey := combinePubKeys attackerBase elkPoint
  let revKey := combinePubKeys customerBase elkPoint
  let revArr := takePad 33 revKey
  let timeoutArr := takePad 33 timeoutKey
  let script := commitScript revArr timeoutArr wd.Delay
  let shOutputScript := p2wshify script
  let txoutNum := (badTx.TxOuts.findIdx? (fun out => out.PkScript == shOutputScript)).getD 999
  if txoutNum == 999 then
    Except.error "couldn't match generated script with detected txout"
  else
    let justiceAmt := (badTx.TxOuts.getD txoutNum defaultTxOut).Value - wd.Fee
    let justicePkScript := directWPKHScriptFromPKH wd.DestPKHScript
    let justiceIn : TxIn :=
      { PreviousOutPoint := ⟨txHash badTx, txoutNum⟩
        SignatureScript := []
        Witness := [[1], sigDecompress isig.Sig]
        Sequence := 1 }
    Except.ok ⟨1, [justiceIn], [⟨justiceAmt, justicePkScript⟩], 0⟩

deriving instance DecidableEq for Except

/-! Concrete fixtures: two channel descriptors, a hint message for the first
channel, and the stores the operations produce from them. -/

/-- A first channel descriptor (20-byte pkh of 1s). -/
def chanDescA : WatchannelDescriptor :=
  ⟨List.replicate 20 1, List.replicate 33 2, List.replicate 33 3, 5, 100,
   List.replicate 32 7⟩

/-- A second channel descriptor with a different pkh. -/
def chanDescB : WatchannelDescriptor :=
  ⟨List.replicate 20 9, List.replicate 33 2, List.replicate 33 3, 6, 200,
   List.replicate 32 8⟩

/-- A hint message for the first channel; its txid bytes are `0,…,31`, so its
8-byte and 16-byte leading slices differ. -/
def hintA : ComMsg :=
  ⟨List.replicate 20 1, List.range 32, List.replicate 32 9, List.replicate 64 3⟩

/-- The store after adding the first channel. -/
def storeA : WatchStore := (AddNewChannel emptyStore chanDescA).1

/-- The store after adding both channels. -/
def storeAB : WatchStore := (AddNewChannel storeA chanDescB).1

/-- C1 (code_bug evaluation): with a channel added and a hint message whose
`AddMsg` commits successfully, `IngestTx` on the message's full 32-byte txid
returns `ok none` — no hint at all — because `AddMsg` stored the record under
`txid[:8]` while `IngestTx` reads `txid[:16]`.  The claim (and the code's own
bucket-layout comment) requires a hit carrying the signature, channel index
and post-add state index. -/
theorem lookup_after_add_misses :
    (AddNewChannel emptyStore chanDescA).2 = Except.ok () ∧
    (AddMsg storeA hintA).2 = Except.ok () ∧
    IngestTx (AddMsg storeA hintA).1 hintA.ParTxid = Except.ok none :=
  ⟨rfl, rfl, rfl⟩

/-- C2 (code_bug evaluation): the committed hint record — 74 bytes,
`pkh_idx = 0`, `state_idx = 1`, the message's signature — lives under the
first 8 bytes of the commitment txid; nothing is stored under the first 16
bytes, contradicting the claimed 16-byte hint key. -/
theorem hint_key_is_eight_bytes :
    getA (AddMsg storeA hintA).1.txidBkt (hintA.ParTxid.take 8)
      = some (u32tB 0 ++ [0, 0, 0, 0, 0, 1] ++ List.replicate 64 3) ∧
    (u32tB 0 ++ [0, 0, 0, 0, 0, 1] ++ List.replicate 64 3).length = 74 ∧
    getA (AddMsg storeA hintA).1.txidBkt (hintA.ParTxid.take 16) = none :=
  ⟨rfl, rfl, rfl⟩

/-- A receiver whose most recent leaf index needs more than 48 bits — the
state a channel reaches after `2 ^ 48 + 5` ingested scalars. -/
def bigElkRcv : ElkremReceiver := ⟨[(2 ^ 48 + 4, List.replicate 32 6)]⟩

/-- A store holding the first channel with `bigElkRcv` as its persisted
hash-tree. -/
def storeBig : WatchStore :=
  ⟨[(0, List.replicate 20 1)],
   [(List.replicate 20 1,
     ⟨some ((wdToBytes chanDescA).take 96), some (elkremToBytes bigElkRcv),
      some (u32tB 0)⟩)],
   []⟩

/-- C3 (counterexample): an `AddMsg` whose post-add state counter is
`2 ^ 48 + 5` (top two bytes of the 8-byte counter nonzero) succeeds and
silently stores the truncated low 6 bytes `[0,0,0,0,0,5]`; the claim says the
call must fail with StateOverflow instead. -/
theorem addmsg_truncates_without_overflow_error :
    (AddMsg storeBig hintA).2 = Except.ok () ∧
    2 ^ 48 ≤ elkremUpTo (elkremAddNext bigElkRcv hintA.Elk) ∧
    getA (AddMsg storeBig hintA).1.txidBkt (hintA.ParTxid.take 8)
      = some (u32tB 0 ++ [0, 0, 0, 0, 0, 5] ++ List.replicate 64 3) :=
  ⟨rfl, by decide, rfl⟩

/-! Fixtures for the justice-reconstructor claims: a channel whose
reconstructed per-state output script appears in a crafted offending
transaction only at output index 999 (and, for the second fixture, also at
index 1000). -/

/-- Payout pkh of the reconstructor fixture channel. -/
def pkhJ : List Nat := List.replicate 20 4

/-- The revocation scalar the fixture receiver reproduces at index 0. -/
def scalarJ : List Nat := List.replicate 32 6

/-- The 96-byte static record of the fixture channel. -/
def staticJ : List Nat :=
  (wdToBytes ⟨pkhJ, List.replicate 33 2, List.replicate 33 3, 144, 100, []⟩).take 96

/-- Store holding the fixture channel at local index 0. -/
def storeJ : WatchStore :=
  ⟨[(0, pkhJ)],
   [(pkhJ, ⟨some staticJ, some (elkremToBytes ⟨[(0, scalarJ)]⟩), some (u32tB 0)⟩)],
   []⟩

/-- Hint for the fixture channel: index 0, state 0. -/
def isigJ : IdxSig := ⟨0, 0, List.replicate 64 8⟩

/-- The P2WSH output script the reconstructor derives for the fixture
channel's state 0 (customer base and adversary base combined with the elk
point, wrapped by `commitScript` and `p2wshify`). -/
def wsJ : List Nat :=
  p2wshify (commitScript
    (takePad 33 (combinePubKeys (List.replicate 33 3) (privKeyToPoint scalarJ)))
    (takePad 33 (combinePubKeys (List.replicate 33 2) (privKeyToPoint scalarJ))) 144)

/-- A non-matching output used to fill the offending transaction. -/
def dummyOut : TxOut := ⟨7, [81]⟩

/-- An offending transaction whose only matching output sits at index 999. -/
def badTxJ : MsgTx := ⟨1, [], List.replicate 999 dummyOut ++ [⟨5000, wsJ⟩], 0⟩

/-- C7 (code_bug evaluation): `badTxJ` contains the reconstructed P2WSH
script at output index 999 — the first (and only) match — yet
`BuildJusticeTx` returns the script-mismatch error instead of the justice
transaction spending outpoint `(txid, 999)`: the Go code uses `999` as its
"no output matched" sentinel, so a genuine match at index 999 is dropped. -/
theorem justice_match_at_999_is_dropped :
    badTxJ.TxOuts.findIdx? (fun out => out.PkScript == wsJ) = some 999 ∧
    (badTxJ.TxOuts.getD 999 defaultTxOut).PkScript = wsJ ∧
    BuildJusticeTx storeJ badTxJ isigJ
      = Except.error "couldn't match generated script with detected txout" :=
  ⟨rfl, rfl, rfl⟩

/-- Payout pkh of the second reconstructor fixture channel. -/
def pkhK : List Nat := List.replicate 20 11

/-- The revocation scalar of the second fixture at index 0. -/
def scalarK : List Nat := List.replicate 32 13

/-- The 96-byte static record of the second fixture channel. -/
def staticK : List Nat :=
  (wdToBytes ⟨pkhK, List.replicate 33 2, List.replicate 33 3, 20, 50, []⟩).take 96

/-- Store holding the second fixture channel at local index 0. -/
def storeK : WatchStore :=
  ⟨[(0, pkhK)],
   [(pkhK, ⟨some staticK, some (elkremToBytes ⟨[(0, scalarK)]⟩), some (u32tB 0)⟩)],
   []⟩

/-- Hint for the second fixture channel. -/
def isigK : IdxSig := ⟨0, 0, List.replicate 64 14⟩

/-- The P2WSH output script reconstructed for the second fixture channel. -/
def wsK : List Nat :=
  p2wshify (commitScript
    (takePad 33 (combinePubKeys (List.replicate 33 3) (privKeyToPoint scalarK)))
    (takePad 33 (combinePubKeys (List.replicate 33 2) (privKeyToPoint scalarK))) 20)

/-- An offending transaction with byte-equal matching outputs at indices 999
and 1000; the first match in index order is 999. -/
def badTxK : MsgTx :=
  ⟨1, [], List.replicate 999 dummyOut ++ [⟨5000, wsK⟩, ⟨6000, wsK⟩], 0⟩

/-- C8 (code_bug evaluation): in `badTxK` the first byte-equal output in
index order is at 999 (another sits at 1000), so the scan should select it;
instead `BuildJusticeTx` reports the no-match ScriptMismatch error, because
the first match's index collides with the Go code's `999` sentinel for "no
output matched". -/
theorem first_match_selection_fails_at_999 :
    badTxK.TxOuts.findIdx? (fun out => out.PkScript == wsK) = some 999 ∧
    (badTxK.TxOuts.getD 1000 defaultTxOut).PkScript = wsK ∧
    BuildJusticeTx storeK badTxK isigK
      = Except.error "couldn't match generated script with detected txout" :=
  ⟨rfl, rfl, rfl⟩

/-- C9 (counterexample): two successful `AddNewChannel` calls that assign the
distinct local indices 0 and 1 (visible in the persisted PkhMap) hand the
caller the identical value `Except.ok ()` — the Go function's return type is
`error` alone, so the assigned `local_index` is not returned to the caller,
contrary to the claim. -/
theorem add_channel_return_carries_no_index :
    (AddNewChannel emptyStore chanDescA).2 = Except.ok () ∧
    (AddNewChannel storeA chanDescB).2 = Except.ok () ∧
    (AddNewChannel storeA chanDescB).2 = (AddNewChannel emptyStore chanDescA).2 ∧
    getA storeA.pkhMap 0 = some chanDescA.DestPKHScript ∧
    getA storeAB.pkhMap 1 = some chanDescB.DestPKHScript :=
  ⟨rfl, rfl, rfl, rfl, rfl⟩

/-! Association-list facts used to reason about the bucket operations. -/

theorem getA_putA {α β : Type} [DecidableEq α] (m : List (α × β)) (k : α) (v : β) (a : α) :
    getA (putA m k v) a = if k = a then some v else getA m a := by
  induction m with
  | nil => simp [getA, putA]
  | cons p t ih =>
    obtain ⟨k', v'⟩ := p
    by_cases h : k' = k
    · subst h
      by_cases h2 : k' = a <;> simp [getA, putA, h2]
    · by_cases h2 : k' = a
      · subst h2
        simp [getA, putA, h, Ne.symm h]
      · simp [getA, putA, h, h2, ih]

theorem putA_putA {α β : Type} [DecidableEq α] (m : List (α × β)) (k : α) (v w : β) :
    putA (putA m k v) k w = putA m k w := by
  induction m with
  | nil => simp [putA]
  | cons p t ih =>
    obtain ⟨k', v'⟩ := p
    by_cases h : k' = k <;> simp [putA, h, ih]

theorem putA_of_getA_none {α β : Type} [DecidableEq α] (m : List (α × β)) (k : α) (v : β)
    (h : getA m k = none) : putA m k v = m ++ [(k, v)] := by
  induction m with
  | nil => simp [putA]
  | cons p t ih =>
    obtain ⟨k', v'⟩ := p
    by_cases h2 : k' = k
    · subst h2
      simp [getA] at h
    · simp [getA, h2] at h
      simp [putA, h2, ih h]

theorem maxKey_append_single {β : Type} (m : List (Nat × β)) (k : Nat) (v : β) :
    maxKey (m ++ [(k, v)])
      = some (match maxKey m with | none => k | some x => max x k) := by
  induction m with
  | nil => simp [maxKey]
  | cons p t ih =>
    obtain ⟨k', v'⟩ := p
    cases h : maxKey t with
    | none =>
      simp [maxKey, ih, h]
    | some x =>
      simp [maxKey, ih, h, Nat.max_assoc]

/-! Characterisations of the two write operations. -/

/-- Successful `addNewChannelBytes`: with the channel absent and a long
enough serialised descriptor, the body commits exactly the new channel
sub-bucket (96-byte static record, serialised one-leaf receiver, 4-byte
index) and the PkhMap entry. -/
theorem addNewChannelBytes_ok (s : WatchStore) (pkh wdB e0 : List Nat)
    (h : getA s.chanData pkh = none) (hl : 96 ≤ wdB.length) :
    addNewChannelBytes s pkh wdB e0 = Except.ok
      { pkhMap := putA s.pkhMap (assignedIdx s) pkh
        chanData := putA s.chanData pkh
          ⟨some (wdB.take 96), some (elkremToBytes (elkremAddNext ⟨[]⟩ e0)),
           some (u32tB (assignedIdx s))⟩
        txidBkt := s.txidBkt } := by
  have hl' : ¬ wdB.length < 96 := Nat.not_lt.mpr hl
  simp [addNewChannelBytes, h, hl', putSub, getA_putA, putA_putA]

/-- `addNewChannelBytes` on an existing channel fails with the
bucket-exists error. -/
theorem addNewChannelBytes_exists (s : WatchStore) (pkh wdB e0 : List Nat)
    (cb : ChanBucket) (h : getA s.chanData pkh = some cb) :
    addNewChannelBytes s pkh wdB e0 = Except.error "bucket already exists" := by
  simp only [addNewChannelBytes, h]

/-- `addNewChannelBytes` with a short serialised descriptor fails with the
length error. -/
theorem addNewChannelBytes_short (s : WatchStore) (pkh wdB e0 : List Nat)
    (h : getA s.chanData pkh = none) (hl : wdB.length < 96) :
    addNewChannelBytes s pkh wdB e0
      = Except.error "watchdescriptor %d bytes, expect 96" := by
  simp only [addNewChannelBytes, h, hl, if_true]

/-- Successful `AddNewChannel` in terms of the store fields it writes. -/
theorem AddNewChannel_ok (s : WatchStore) (wd : WatchannelDescriptor)
    (h : getA s.chanData wd.DestPKHScript = none) :
    AddNewChannel s wd =
      ({ pkhMap := putA s.pkhMap (assignedIdx s) wd.DestPKHScript
         chanData := putA s.chanData wd.DestPKHScript
           ⟨some ((wdToBytes wd).take 96),
            some (elkremToBytes (elkremAddNext ⟨[]⟩ wd.ElkZero)),
            some (u32tB (assignedIdx s))⟩
         txidBkt := s.txidBkt }, Except.ok ()) := by
  have hl : 96 ≤ (wdToBytes wd).length := by
    simp [wdToBytes, takePad, u16tB, i64tB, u64tB]
    omega
  rw [AddNewChannel, addNewChannelBytes_ok s wd.DestPKHScript (wdToBytes wd) wd.ElkZero h hl]

/-- `AddNewChannel` on an already-present channel pkh rolls back with the
bucket-exists error. -/
theorem AddNewChannel_exists (s : WatchStore) (wd : WatchannelDescriptor)
    (cb : ChanBucket) (h : getA s.chanData wd.DestPKHScript = some cb) :
    AddNewChannel s wd = (s, Except.error "bucket already exists") := by
  rw [AddNewChannel, addNewChannelBytes_exists s wd.DestPKHScript (wdToBytes wd) wd.ElkZero cb h]

/-- Successful `addMsgBody` in terms of the two bucket writes it makes: the
re-serialised advanced receiver under the channel's `elk` key and the
assembled 74-byte record under the txid's first 8 bytes. -/
theorem addMsgBody_ok (s : WatchStore) (cm : ComMsg) (cb : ChanBucket)
    (elkr : ElkremReceiver) (ib : List Nat)
    (h : getA s.chanData cm.DestPKH = some cb)
    (he : elkremFromBytes (cb.elk.getD []) = Except.ok elkr)
    (hi : cb.idx = some ib) :
    addMsgBody s cm = Except.ok
      { s with
        chanData := putA s.chanData cm.DestPKH
          { cb with elk := some (elkremToBytes (elkremAddNext elkr cm.Elk)) }
        txidBkt := putA s.txidBkt (cm.ParTxid.take 8)
          (takePad 4 ib ++ (u64tB (elkremUpTo (elkremAddNext elkr cm.Elk))).drop 2
            ++ takePad 64 cm.Sig) } := by
  simp [addMsgBody, h, he, hi, putSub, getA_putA]

/-- Every error return of `AddMsg` rolls the store back (the `bolt.Update`
wrapper discards the transaction's intermediate writes). -/
theorem AddMsg_error_rollback (s : WatchStore) (cm : ComMsg) (e : String)
    (h : (AddMsg s cm).2 = Except.error e) : (AddMsg s cm).1 = s := by
  rw [AddMsg] at h ⊢
  cases hb : addMsgBody s cm with
  | ok s2 => rw [hb] at h; simp at h
  | error e2 => rfl

/-- A successful `AddMsg` went through the whole body: the channel bucket
existed, its receiver decoded, its index was present. -/
theorem AddMsg_ok_cases (s : WatchStore) (cm : ComMsg)
    (h : (AddMsg s cm).2 = Except.ok ()) :
    ∃ cb elkr ib,
      getA s.chanData cm.DestPKH = some cb ∧
      elkremFromBytes (cb.elk.getD []) = Except.ok elkr ∧
      cb.idx = some ib := by
  cases hc : getA s.chanData cm.DestPKH with
  | none =>
    simp only [AddMsg, addMsgBody, hc] at h
    simp at h
  | some cb =>
    cases he : elkremFromBytes (cb.elk.getD []) with
    | error e =>
      simp only [AddMsg, addMsgBody, hc, he] at h
      simp at h
    | ok elkr =>
      cases hi : cb.idx with
      | none =>
        simp only [AddMsg, addMsgBody, hc, he, putSub, getA_putA, if_pos,
          Option.some.injEq] at h
        simp [hi] at h
      | some ib => exact ⟨cb, elkr, ib, rfl, he, hi⟩

/-- Dropping the top two bytes of the 8-byte big-endian counter is exactly
truncation to the counter's value modulo `2 ^ 48`. -/
theorem u64tB_drop_two (n : Nat) : (u64tB n).drop 2 = u48tB (n % 2 ^ 48) := by
  simp [u64tB, u48tB]
  refine ⟨?_, ?_, ?_, ?_, ?_, ?_⟩ <;> omega

/-- C5: a channel whose pkh already has a sub-bucket makes `AddNewChannel`
fail with the bucket-exists error, and every failing `AddNewChannel` call
leaves the store exactly as it was (the transaction aborts; no channel
sub-bucket, PkhMap entry or partial sub-key survives). -/
theorem add_channel_duplicate_rejected_and_atomic (s : WatchStore)
    (wd : WatchannelDescriptor) :
    ((getA s.chanData wd.DestPKHScript).isSome →
      AddNewChannel s wd = (s, Except.error "bucket already exists")) ∧
    (∀ e, (AddNewChannel s wd).2 = Except.error e → (AddNewChannel s wd).1 = s) := by
  constructor
  · intro h
    obtain ⟨cb, hcb⟩ := Option.isSome_iff_exists.mp h
    exact AddNewChannel_exists s wd cb hcb
  · intro e h
    rw [AddNewChannel] at h ⊢
    cases hb : addNewChannelBytes s wd.DestPKHScript (wdToBytes wd) wd.ElkZero with
    | ok s2 => rw [hb] at h; simp at h
    | error e2 => rfl

/-- C5 witness: re-adding the first channel to the store that already holds
it is rejected and leaves the store untouched. -/
theorem add_channel_duplicate_rejected_and_atomic_witness :
    AddNewChannel storeA chanDescA = (storeA, Except.error "bucket already exists") :=
  (add_channel_duplicate_rejected_and_atomic storeA chanDescA).1 rfl

/-- C6: `add_hint` commits all-or-nothing — an `AddMsg` that returns an
error leaves the store exactly in its pre-call state (same persisted `elk`
bytes, no new hint-index entry), and a successful one makes exactly the two
writes of the transaction visible together: the advanced receiver's bytes
under `elk` and the assembled 74-byte hint record in the hint index. -/
theorem add_hint_no_partial_commit (s : WatchStore) (cm : ComMsg) :
    (∀ e, (AddMsg s cm).2 = Except.error e → (AddMsg s cm).1 = s) ∧
    ((AddMsg s cm).2 = Except.ok () → ∃ cb elkr ib,
      getA s.chanData cm.DestPKH = some cb ∧
      elkremFromBytes (cb.elk.getD []) = Except.ok elkr ∧
      cb.idx = some ib ∧
      (AddMsg s cm).1 = { s with
        chanData := putA s.chanData cm.DestPKH
          { cb with elk := some (elkremToBytes (elkremAddNext elkr cm.Elk)) }
        txidBkt := putA s.txidBkt (cm.ParTxid.take 8)
          (takePad 4 ib ++ (u64tB (elkremUpTo (elkremAddNext elkr cm.Elk))).drop 2
            ++ takePad 64 cm.Sig) }) := by
  constructor
  · exact AddMsg_error_rollback s cm
  · intro h
    obtain ⟨cb, elkr, ib, hc, he, hi⟩ := AddMsg_ok_cases s cm h
    refine ⟨cb, elkr, ib, hc, he, hi, ?_⟩
    rw [AddMsg, addMsgBody_ok s cm cb elkr ib hc he hi]

/-- C6 witness: a hint for an unknown channel errors and leaves the empty
store unchanged. -/
theorem add_hint_no_partial_commit_witness :
    (AddMsg emptyStore hintA).1 = emptyStore :=
  (add_hint_no_partial_commit emptyStore hintA).1 "no bucket for channel" rfl

/-- C3 (amended): whenever the channel bucket exists with a decodable
receiver and an index key, `AddMsg` succeeds — there is no overflow check —
and the `state_idx` it writes into bytes 4..9 of the 74-byte hint is the drop
of the top two bytes of the 8-byte post-add counter, i.e. the counter
silently truncated modulo `2 ^ 48`. -/
theorem addmsg_state_idx_low_six_bytes (s : WatchStore) (cm : ComMsg)
    (cb : ChanBucket) (elkr : ElkremReceiver) (ib : List Nat)
    (h : getA s.chanData cm.DestPKH = some cb)
    (he : elkremFromBytes (cb.elk.getD []) = Except.ok elkr)
    (hi : cb.idx = some ib) :
    (AddMsg s cm).2 = Except.ok () ∧
    getA (AddMsg s cm).1.txidBkt (cm.ParTxid.take 8)
      = some (takePad 4 ib
          ++ u48tB (elkremUpTo (elkremAddNext elkr cm.Elk) % 2 ^ 48)
          ++ takePad 64 cm.Sig) := by
  have hb := addMsgBody_ok s cm cb elkr ib h he hi
  rw [AddMsg, hb]
  refine ⟨rfl, ?_⟩
  simp [getA_putA, u64tB_drop_two]

/-- C3 amended-claim witness: in the single-channel store the first hint
commits with state bytes `[0,0,0,0,0,1]` (counter 1 after the add). -/
theorem addmsg_state_idx_low_six_bytes_witness :
    (AddMsg storeA hintA).2 = Except.ok () ∧
    getA (AddMsg storeA hintA).1.txidBkt (hintA.ParTxid.take 8)
      = some (takePad 4 (u32tB 0)
          ++ u48tB (elkremUpTo (elkremAddNext ⟨[(0, List.replicate 32 7)]⟩ hintA.Elk) % 2 ^ 48)
          ++ takePad 64 hintA.Sig) :=
  addmsg_state_idx_low_six_bytes storeA hintA
    ⟨some ((wdToBytes chanDescA).take 96),
     some (elkremToBytes (elkremAddNext ⟨[]⟩ (List.replicate 32 7))),
     some (u32tB 0)⟩
    ⟨[(0, List.replicate 32 7)]⟩ (u32tB 0) rfl rfl rfl

/-- C9 (amended): a successful `AddNewChannel` hands the caller only
`Except.ok ()`; the index it assigned (largest existing PkhMap key plus one,
0 for the first channel) is persisted under the channel's `idx` sub-key and
as the channel's PkhMap key, not returned. -/
theorem add_channel_persists_assigned_index (s : WatchStore)
    (wd : WatchannelDescriptor) (h : (AddNewChannel s wd).2 = Except.ok ()) :
    ∃ cb, getA (AddNewChannel s wd).1.chanData wd.DestPKHScript = some cb ∧
      cb.idx = some (u32tB (assignedIdx s)) ∧
      getA (AddNewChannel s wd).1.pkhMap (assignedIdx s) = some wd.DestPKHScript := by
  cases hc : getA s.chanData wd.DestPKHScript with
  | some cb =>
    rw [AddNewChannel_exists s wd cb hc] at h
    simp at h
  | none =>
    rw [AddNewChannel_ok s wd hc]
    refine ⟨⟨some ((wdToBytes wd).take 96),
      some (elkremToBytes (elkremAddNext ⟨[]⟩ wd.ElkZero)),
      some (u32tB (assignedIdx s))⟩, ?_, rfl, ?_⟩
    · simp [getA_putA]
    · simp [getA_putA]

/-- C9 amended-claim witness: the first channel's assigned index 0 is
persisted in its `idx` sub-key and PkhMap entry. -/
theorem add_channel_persists_assigned_index_witness :
    ∃ cb, getA (AddNewChannel emptyStore chanDescA).1.chanData chanDescA.DestPKHScript
        = some cb ∧
      cb.idx = some (u32tB (assignedIdx emptyStore)) ∧
      getA (AddNewChannel emptyStore chanDescA).1.pkhMap (assignedIdx emptyStore)
        = some chanDescA.DestPKHScript :=
  add_channel_persists_assigned_index emptyStore chanDescA rfl

/-- C10: for a new channel pkh, a serialised descriptor of at least 96 bytes
is not rejected on length — exactly its first 96 bytes become the persisted
static record, trailing bytes discarded — while an encoding strictly shorter
than 96 bytes fails the length check. -/
theorem static_record_is_first_96_bytes (s : WatchStore)
    (pkh wdB e0 : List Nat) (h : getA s.chanData pkh = none) :
    (96 ≤ wdB.length → ∃ s2, addNewChannelBytes s pkh wdB e0 = Except.ok s2 ∧
      ∃ cb, getA s2.chanData pkh = some cb ∧ cb.static = some (wdB.take 96)) ∧
    (wdB.length < 96 → addNewChannelBytes s pkh wdB e0
      = Except.error "watchdescriptor %d bytes, expect 96") := by
  constructor
  · intro hl
    rw [addNewChannelBytes_ok s pkh wdB e0 h hl]
    refine ⟨_, rfl, ⟨some (wdB.take 96),
      some (elkremToBytes (elkremAddNext ⟨[]⟩ e0)),
      some (u32tB (assignedIdx s))⟩, ?_, rfl⟩
    simp [getA_putA]
  · intro hl
    exact addNewChannelBytes_short s pkh wdB e0 h hl

/-- C10 witness: a 100-byte serialised descriptor is accepted and its first
96 bytes are stored. -/
theorem static_record_is_first_96_bytes_witness :
    ∃ s2, addNewChannelBytes emptyStore (List.replicate 20 5) (List.replicate 100 5) []
        = Except.ok s2 ∧
      ∃ cb, getA s2.chanData (List.replicate 20 5) = some cb ∧
        cb.static = some ((List.replicate 100 5).take 96) :=
  (static_record_is_first_96_bytes emptyStore (List.replicate 20 5)
    (List.replicate 100 5) [] rfl).1 (by simp)

/-- Stores reachable from a freshly opened empty store by `n` successful
`AddNewChannel` calls, in any order and with store close/reopen allowed in
between (`OpenDB` on an existing store only re-ensures the buckets). -/
inductive chainReach : WatchStore → Nat → Prop where
  | base : chainReach emptyStore 0
  | step (s : WatchStore) (n : Nat) (wd : WatchannelDescriptor) :
      chainReach s n → (AddNewChannel s wd).2 = Except.ok () →
      chainReach (AddNewChannel s wd).1 (n + 1)
  | reopen (s : WatchStore) (n : Nat) : chainReach s n → chainReach (openDB s) n

/-- Invariant carried by every reachable store: PkhMap holds exactly the
keys below `n`, every stored pkh has a channel sub-bucket, the stored pkhs
are pairwise distinct, and the largest key is `n - 1`. -/
theorem chainReach_inv (s : WatchStore) (n : Nat) (h : chainReach s n) :
    n ≤ 2 ^ 32 →
    (∀ k, (getA s.pkhMap k).isSome ↔ k < n) ∧
    (∀ k p, getA s.pkhMap k = some p → (getA s.chanData p).isSome) ∧
    (∀ k1 k2 p, getA s.pkhMap k1 = some p → getA s.pkhMap k2 = some p → k1 = k2) ∧
    maxKey s.pkhMap = (if n = 0 then none else some (n - 1)) := by
  induction h with
  | base => intro _; simp [emptyStore, getA, maxKey]
  | reopen s n hr ih => exact ih
  | step s n wd hr hok ih =>
    intro hn
    obtain ⟨ih1, ih2, ih3, ih4⟩ := ih (by omega)
    have hnone : getA s.chanData wd.DestPKHScript = none := by
      cases hc : getA s.chanData wd.DestPKHScript with
      | none => rfl
      | some cb =>
        rw [AddNewChannel_exists s wd cb hc] at hok
        simp at hok
    have hidx : assignedIdx s = n := by
      rw [assignedIdx, ih4]
      cases n with
      | zero => simp
      | succ m =>
        rw [if_neg (Nat.succ_ne_zero m)]
        show (m + 1 - 1 + 1) % 2 ^ 32 = m + 1
        omega
    have hmn : getA s.pkhMap n = none := by
      have h2 : ¬ (getA s.pkhMap n).isSome := by
        rw [ih1 n]
        omega
      exact Option.not_isSome_iff_eq_none.mp h2
    rw [AddNewChannel_ok s wd hnone, hidx]
    refine ⟨?_, ?_, ?_, ?_⟩
    · intro k
      rw [getA_putA]
      by_cases hk : n = k
      · subst hk
        simp
      · simp only [hk, if_false]
        rw [ih1 k]
        omega
    · intro k p hkp
      rw [getA_putA] at hkp
      rw [getA_putA]
      by_cases hk : n = k
      · simp only [hk, if_true] at hkp
        have hp : p = wd.DestPKHScript := (Option.some_inj.mp hkp).symm
        simp [hp]
      · simp only [hk, if_false] at hkp
        have h2 := ih2 k p hkp
        by_cases hp : wd.DestPKHScript = p
        · simp [hp]
        · simp only [hp, if_false]
          exact h2
    · intro k1 k2 p h1 h2
      rw [getA_putA] at h1 h2
      by_cases e1 : n = k1 <;> by_cases e2 : n = k2
      · omega
      · exfalso
        simp only [e1, if_true] at h1
        simp only [e2, if_false] at h2
        have hp : p = wd.DestPKHScript := (Option.some_inj.mp h1).symm
        have := ih2 k2 p h2
        rw [hp, hnone] at this
        simp at this
      · exfalso
        simp only [e2, if_true] at h2
        simp only [e1, if_false] at h1
        have hp : p = wd.DestPKHScript := (Option.some_inj.mp h2).symm
        have := ih2 k1 p h1
        rw [hp, hnone] at this
        simp at this
      · simp only [e1, if_false] at h1
        simp only [e2, if_false] at h2
        exact ih3 k1 k2 p h1 h2
    · rw [putA_of_getA_none s.pkhMap n wd.DestPKHScript hmn,
        maxKey_append_single, ih4]
      cases n with
      | zero => simp
      | succ m =>
        simp only [Nat.succ_ne_zero, if_false]
        have : max m (m + 1) = m + 1 := Nat.max_eq_right (Nat.le_succ m)
        simp [this]

/-- C4 (amended): for every `n ≤ 2 ^ 32`, after `n` successful `add_channel`
calls in any order, including across close/reopen, the PkhMap bucket holds
exactly the keys `{0, …, n-1}` (each key the number a 4-byte big-endian
`u32` encodes), and the stored destination pkhs are pairwise distinct; the
first channel gets index 0 and each later one the largest existing key plus
one modulo `2 ^ 32` (the `assignedIdx` rule of the embedding).  The bound is
needed because the code's `uint32` index wraps: the call after `2 ^ 32`
channels reuses index 0 and density fails. -/
theorem dense_indices (s : WatchStore) (n : Nat) (h : chainReach s n)
    (hn : n ≤ 2 ^ 32) :
    (∀ k, (getA s.pkhMap k).isSome ↔ k < n) ∧
    (∀ k1 k2 p, getA s.pkhMap k1 = some p → getA s.pkhMap k2 = some p → k1 = k2) := by
  obtain ⟨h1, _, h3, _⟩ := chainReach_inv s n h hn
  exact ⟨h1, h3⟩

/-- The two-channel fixture store is reachable by two successful calls. -/
theorem chainReach_storeAB : chainReach storeAB 2 := by
  have h1 : chainReach storeA 1 :=
    chainReach.step emptyStore 0 chanDescA chainReach.base rfl
  exact chainReach.step storeA 1 chanDescB h1 rfl

/-- C4 witness: in the two-channel store, keys 0 and 1 are present and key 2
is absent. -/
theorem dense_indices_witness :
    (getA storeAB.pkhMap 0).isSome ∧ (getA storeAB.pkhMap 1).isSome ∧
      ¬ (getA storeAB.pkhMap 2).isSome :=
  ⟨((dense_indices storeAB 2 chainReach_storeAB (by norm_num)).1 0).mpr (by omega),
   ((dense_indices storeAB 2 chainReach_storeAB (by norm_num)).1 1).mpr (by omega),
   fun hc => by
     have h2 := ((dense_indices storeAB 2 chainReach_storeAB (by norm_num)).1 2).mp hc
     omega⟩

/-- Big-endian `u64tB` is injective on 64-bit values. -/
theorem u64tB_inj (i j : Nat) (hi : i < 2 ^ 64) (hj : j < 2 ^ 64)
    (h : u64tB i = u64tB j) : i = j := by
  simp [u64tB] at h
  omega

/-- A family of pairwise-distinct 20-byte destination pkhs, one per channel
number: the channel number's 8 big-endian bytes padded to 20. -/
def pkhN (i : Nat) : List Nat := takePad 20 (u64tB i)

/-- Distinct channel numbers below `2 ^ 64` get distinct pkhs. -/
theorem pkhN_inj (i j : Nat) (hi : i < 2 ^ 64) (hj : j < 2 ^ 64)
    (h : pkhN i = pkhN j) : i = j := by
  apply u64tB_inj i j hi hj
  have hli : (u64tB i).length = 8 := by simp [u64tB]
  have hlj : (u64tB j).length = 8 := by simp [u64tB]
  rw [pkhN, pkhN, takePad, takePad, hli, hlj,
    List.take_of_length_le (by rw [hli]; omega),
    List.take_of_length_le (by rw [hlj]; omega)] at h
  exact List.append_cancel_right h

/-- The descriptor of channel number `i` in the long add chain. -/
def descN (i : Nat) : WatchannelDescriptor :=
  ⟨pkhN i, List.replicate 33 2, List.replicate 33 3, 1, 0, List.replicate 32 0⟩

/-- The store after channels `0, …, k-1` have been added in order to a
freshly opened store. -/
def addChain : Nat → WatchStore
  | 0 => emptyStore
  | k + 1 => (AddNewChannel (addChain k) (descN k)).1

/-- One unfolding step of the add chain. -/
theorem addChain_succ (k : Nat) :
    addChain (k + 1) = (AddNewChannel (addChain k) (descN k)).1 := rfl

/-- Every prefix of the add chain is reachable by that many successful
calls, and its ChannelData bucket holds exactly the pkhs added so far. -/
theorem addChain_inv : ∀ k, k ≤ 2 ^ 64 →
    chainReach (addChain k) k ∧
    (∀ p, (getA (addChain k).chanData p).isSome ↔ ∃ i, i < k ∧ p = pkhN i) := by
  intro k
  induction k with
  | zero =>
    intro _
    exact ⟨chainReach.base, by simp [addChain, emptyStore, getA]⟩
  | succ m ih =>
    intro hk
    obtain ⟨ha, hb⟩ := ih (by omega)
    have hfresh : getA (addChain m).chanData (pkhN m) = none := by
      apply Option.not_isSome_iff_eq_none.mp
      rw [hb (pkhN m)]
      rintro ⟨i, hi, hip⟩
      have := pkhN_inj m i (by omega) (by omega) hip
      omega
    have hok := AddNewChannel_ok (addChain m) (descN m) hfresh
    constructor
    · rw [addChain_succ]
      exact chainReach.step (addChain m) m (descN m) ha (by rw [hok])
    · intro p
      rw [addChain_succ, hok]
      simp only [descN, getA_putA]
      by_cases hp : pkhN m = p
      · subst hp
        rw [if_pos rfl]
        exact iff_of_true rfl ⟨m, by omega, rfl⟩
      · rw [if_neg hp, hb p]
        constructor
        · rintro ⟨i, hi, e⟩
          exact ⟨i, by omega, e⟩
        · rintro ⟨i, hi, e⟩
          rcases Nat.lt_succ_iff_lt_or_eq.mp hi with h2 | h2
          · exact ⟨i, h2, e⟩
          · subst h2
            exact absurd e.symm hp

/-- C4 (counterexample): after `2 ^ 32 + 1` successful `add_channel` calls
the store does not contain PkhMap key `2 ^ 32`: the `uint32` index of the
last call wrapped to 0 and overwrote the first channel's entry, so PkhMap
does not contain exactly the keys `{0, …, n-1}` for `n = 2 ^ 32 + 1` as the
unbounded claim requires. -/
theorem index_wrap_breaks_density :
    chainReach (addChain (2 ^ 32 + 1)) (2 ^ 32 + 1) ∧
    getA (addChain (2 ^ 32 + 1)).pkhMap (2 ^ 32) = none := by
  obtain ⟨ha, _⟩ := addChain_inv (2 ^ 32 + 1) (by norm_num)
  refine ⟨ha, ?_⟩
  obtain ⟨ha', hb'⟩ := addChain_inv (2 ^ 32) (by norm_num)
  obtain ⟨i1, _, _, i4⟩ := chainReach_inv (addChain (2 ^ 32)) (2 ^ 32) ha' (le_refl _)
  have hfresh : getA (addChain (2 ^ 32)).chanData (pkhN (2 ^ 32)) = none := by
    apply Option.not_isSome_iff_eq_none.mp
    rw [hb' (pkhN (2 ^ 32))]
    rintro ⟨i, hi, hip⟩
    have := pkhN_inj (2 ^ 32) i (by norm_num) (by omega) hip
    omega
  have hok := AddNewChannel_ok (addChain (2 ^ 32)) (descN (2 ^ 32)) hfresh
  have hidx0 : assignedIdx (addChain (2 ^ 32)) = 0 := by
    rw [assignedIdx, i4, if_neg (by norm_num : ¬ ((2:Nat) ^ 32 = 0))]
    show (2 ^ 32 - 1 + 1) % 2 ^ 32 = 0
    omega
  rw [addChain_succ, hok, hidx0]
  simp only [getA_putA]
  rw [if_neg (by norm_num : ¬ ((0:Nat) = 2 ^ 32))]
  have h2 : ¬ (getA (addChain (2 ^ 32)).pkhMap (2 ^ 32)).isSome := by
    rw [i1]
    omega
  exact Option.not_isSome_iff_eq_none.mp h2
